import Mathlib

/-!
Shallow embedding of `safe_rsync.py` (a Python rsync wrapper) and proofs
about its command construction, version parsing, output classification,
summary persistence and orchestration.

Python strings are modelled as `List Char` (`PyStr`); Python's `os.sep`
is `'/'` (the script only supports macOS/Linux).  Fallible code returns
`Option`.  Side effects (directory creation, process spawning, file
writes) are modelled as an explicit effect trace.
-/

namespace SafeRsync

/-- Python strings, modelled as lists of characters. -/
abbrev PyStr := List Char

/-- `os.sep` on the supported platforms (macOS / Linux). -/
def osSep : Char := '/'

/-- Characters stripped by Python's no-argument `str.rstrip()` (ASCII whitespace). -/
def isPyWs (c : Char) : Bool :=
  c = ' ' || c = '\t' || c = '\n' || c = '\r' || c = '\x0b' || c = '\x0c'

/-- Python `s.rstrip()`: remove all trailing whitespace characters. -/
def pyRstrip (s : PyStr) : PyStr :=
  (s.reverse.dropWhile isPyWs).reverse

/-- Python `s.rstrip(c)` for a single character `c`: remove all trailing `c`. -/
def rstripChar (c : Char) (s : PyStr) : PyStr :=
  (s.reverse.dropWhile (· = c)).reverse

/-- Python `s.split(c)` for a one-character separator `c`. -/
def splitChar (c : Char) : PyStr → List PyStr
  | [] => [[]]
  | a :: t =>
    if a = c then [] :: splitChar c t
    else
      match splitChar c t with
      | [] => [[a]]
      | h :: r => (a :: h) :: r

/-- Substring test: Python's `pat in s` for strings. -/
def containsSub (pat : PyStr) : PyStr → Bool
  | [] => pat.isPrefixOf []
  | s@(_ :: t) => pat.isPrefixOf s || containsSub pat t

/-- `os.path.join(a, b)` on POSIX, for the cases the script exercises. -/
def pyJoin (a b : PyStr) : PyStr :=
  if b.head? = some osSep then b
  else if a = [] then b
  else if a.getLast? = some osSep then a ++ b
  else a ++ osSep :: b

/-- The decimal digit character for `d < 10`. -/
def digitChar (d : Nat) : Char := "0123456789".data.getD d '9'

/-- Decimal rendering with explicit fuel (structural recursion, so that the
kernel can evaluate it); any fuel `≥ n` gives the true digits of `n`. -/
def natDigitsF : Nat → Nat → PyStr
  | 0, n => [digitChar n]
  | fuel + 1, n =>
    if n < 10 then [digitChar n]
    else natDigitsF fuel (n / 10) ++ [digitChar (n % 10)]

/-- Decimal rendering of a natural number (Python `str(n)` for `n ≥ 0`). -/
def natDigits (n : Nat) : PyStr := natDigitsF n n

/-- Python `int(p)` on a string of decimal digits. -/
def pyInt (p : PyStr) : Nat :=
  p.foldl (fun a c => a * 10 + (c.toNat - 48)) 0

/-!  ## CommandBuilder: `build_rsync_command`  -/

/-- The option list built by `build_rsync_command` before the dry-run insertion
(source lines 120–127). -/
def baseOpts (backup_dir exclude_pattern : PyStr) : List PyStr :=
  [ "-ah".data,
    "--delete".data,
    "--info=stats2,progress2".data,
    "--exclude=".data ++ exclude_pattern,
    "--backup".data,
    "--backup-dir=".data ++ backup_dir ]

/-- `src.rstrip(os.sep) + os.sep` (source line 131). -/
def src_with_slash (src : PyStr) : PyStr :=
  rstripChar osSep src ++ [osSep]

/-- `build_rsync_command(src, dst, backup_dir, exclude_pattern, dry_run)`
(source lines 107–132): the full rsync argument list. -/
def build_rsync_command (src dst backup_dir exclude_pattern : PyStr)
    (dry_run : Bool) : List PyStr :=
  let opts := baseOpts backup_dir exclude_pattern
  let opts := if dry_run then "--dry-run".data :: opts else opts
  "rsync".data :: opts ++ [src_with_slash src, dst]

example :
    build_rsync_command "/a/b".data "/c".data "/c/bak".data "pat".data false =
      [ "rsync".data, "-ah".data, "--delete".data, "--info=stats2,progress2".data,
        "--exclude=pat".data, "--backup".data, "--backup-dir=/c/bak".data,
        "/a/b/".data, "/c".data ] := by decide

example :
    build_rsync_command "/a//".data "/c".data "b".data "p".data true =
      [ "rsync".data, "--dry-run".data, "-ah".data, "--delete".data,
        "--info=stats2,progress2".data, "--exclude=p".data, "--backup".data,
        "--backup-dir=b".data, "/a/".data, "/c".data ] := by decide

/-!  ## VersionChecker: `parse_rsync_version` and `check_rsync`

The Python code runs `re.search(r"rsync\s+version\s+([0-9]+(?:\.[0-9]+)+)", output)`
(source line 69).  In this pattern every greedy repetition is followed by a
character it can never match (`\s+` by a letter, `[0-9]+` by `.` or a
non-digit), so Python's backtracking search is equivalent to the
deterministic maximal-munch matcher embedded here: try the pattern at each
start offset from the left, consuming each piece greedily.  -/

/-- `\s` of the regex: whitespace characters. -/
def isWs (c : Char) : Bool :=
  c = ' ' || c = '\t' || c = '\n' || c = '\r' || c = '\x0b' || c = '\x0c'

/-- `[0-9]` of the regex. -/
def isDigit (c : Char) : Bool := '0' ≤ c && c ≤ '9'

/-- Consume a literal string at the front, returning the remainder. -/
def stripLit (lit s : PyStr) : Option PyStr :=
  if lit.isPrefixOf s then some (s.drop lit.length) else none

/-- Consume `\s+` (at least one whitespace character, greedily). -/
def takeWs1 (s : PyStr) : Option PyStr :=
  if s.takeWhile isWs = [] then none else some (s.dropWhile isWs)

/-- Consume `[0-9]+` greedily, returning the digits and the remainder. -/
def takeDigits1 (s : PyStr) : Option (PyStr × PyStr) :=
  if s.takeWhile isDigit = [] then none
  else some (s.takeWhile isDigit, s.dropWhile isDigit)

/-- Greedy scan for `[0-9]*(?:\.[0-9]+)*`, character by character (structural
recursion, so that the kernel can evaluate it); returns (consumed, remainder). -/
def dgDigits : PyStr → PyStr × PyStr
  | [] => ([], [])
  | [c] =>
    if isDigit c then ([c], [])
    else ([], [c])
  | c :: d :: t =>
    if isDigit c then (c :: (dgDigits (d :: t)).1, (dgDigits (d :: t)).2)
    else if c = '.' && isDigit d then ('.' :: d :: (dgDigits t).1, (dgDigits t).2)
    else ([], c :: d :: t)

/-- Consume `(?:\.[0-9]+)*` greedily, returning (consumed, remainder). -/
def dotGroups : PyStr → PyStr × PyStr
  | c :: d :: t =>
    if c = '.' && isDigit d then (c :: d :: (dgDigits t).1, (dgDigits t).2)
    else ([], c :: d :: t)
  | s => ([], s)

/-- Match `rsync\s+version\s+([0-9]+(?:\.[0-9]+)+)` anchored at the start of
`s`; return the capture group on success. -/
def matchVersionAt (s : PyStr) : Option PyStr :=
  Option.bind (stripLit "rsync".data s) fun s1 =>
  Option.bind (takeWs1 s1) fun s2 =>
  Option.bind (stripLit "version".data s2) fun s3 =>
  Option.bind (takeWs1 s3) fun s4 =>
  Option.bind (takeDigits1 s4) fun ds =>
  if (dotGroups ds.2).1 = [] then none else some (ds.1 ++ (dotGroups ds.2).1)

/-- `re.search`: try the pattern at every start offset, left to right. -/
def reSearchVersion : PyStr → Option PyStr
  | [] => matchVersionAt []
  | s@(_ :: t) =>
    match matchVersionAt s with
    | some cap => some cap
    | none => reSearchVersion t

/-- The `while len(parts) < 3: parts += (0,)` padding (source lines 75–76). -/
def padTo3 (l : List Nat) : List Nat :=
  l ++ List.replicate (3 - l.length) 0

/-- `parse_rsync_version(output)` (source lines 60–77).  Returns
`none` where the Python raises `RuntimeError("Couldn't detect rsync version.")`,
else the version string and the zero-padded numeric tuple (modelled as a
list, since Python's tuple here has no fixed arity). -/
def parse_rsync_version (output : PyStr) : Option (PyStr × List Nat) :=
  match reSearchVersion output with
  | none => none
  | some vs => some (vs, padTo3 ((splitChar '.' vs).map pyInt))

/-- Python tuple `<` on integer tuples of possibly different lengths:
lexicographic, with a strict prefix comparing less. -/
def pyListLt : List Nat → List Nat → Bool
  | [], [] => false
  | [], _ :: _ => true
  | _ :: _, [] => false
  | a :: as_, b :: bs => a < b || (a == b && pyListLt as_ bs)

/-- The default minimum version of `check_rsync` (source line 80). -/
def minVersion : List Nat := [3, 2, 0]

/-- Outcome of the version gate in `check_rsync` (source lines 89–95), given
the text that `rsync --version` printed. -/
inductive CheckResult where
  | parseError : CheckResult
  | tooOld : PyStr → CheckResult
  | ok : PyStr → CheckResult
deriving DecidableEq, Repr

/-- The pure core of `check_rsync` (source lines 89–95): parse the reported
version and compare it against `minVersion` with Python tuple `<`. -/
def check_rsync (output : PyStr) : CheckResult :=
  match parse_rsync_version output with
  | none => .parseError
  | some (vs, ver) => if pyListLt ver minVersion then .tooOld vs else .ok vs

example :
    parse_rsync_version "rsync  version 3.2.7  protocol version 31".data =
      some ("3.2.7".data, [3, 2, 7]) := by decide

example : parse_rsync_version "rsync version 3.2".data =
    some ("3.2".data, [3, 2, 0]) := by decide

example : parse_rsync_version "foo version 3.2".data = none := by decide

example : parse_rsync_version "rsync version x.y".data = none := by decide

example : check_rsync "rsync version 3.1.3".data = .tooOld "3.1.3".data := by decide

/-!  ## ProcessRunner: the streaming loop of `execute_rsync`

The loop (source lines 168–183) owns a statistics buffer, the previous
progress-line length, and the console; we model the console as the ordered
list of transient progress strings printed with `print(f"\r{line}{padding}",
end="")`.  -/

/-- The mutable state of the `execute_rsync` streaming loop. -/
structure LoopState where
  stats : List PyStr
  prevLen : Nat
  rendered : List PyStr
deriving DecidableEq, Repr

/-- The statistic markers of the regex
`^(Number of|Total|Literal|Matched|File list|sent|total size)` (source line 178). -/
def statMarkers : List PyStr :=
  [ "Number of".data, "Total".data, "Literal".data, "Matched".data,
    "File list".data, "sent".data, "total size".data ]

/-- `re.match` against the marker alternation: does any marker start the line? -/
def isStatLine (line : PyStr) : Bool :=
  statMarkers.any (fun m => m.isPrefixOf line)

/-- `"%" in line or "to-chk=" in line` (source line 180). -/
def isProgressLine (line : PyStr) : Bool :=
  line.contains '%' || containsSub "to-chk=".data line

/-- One iteration of the `for line in proc.stdout` loop (source lines 173–183). -/
def stepLine (st : LoopState) (raw : PyStr) : LoopState :=
  let line := pyRstrip raw
  if line = [] then st
  else if isStatLine line then
    { st with stats := st.stats ++ [line] }
  else if isProgressLine line then
    { st with
      rendered := st.rendered ++
        ['\r' :: line ++ List.replicate (st.prevLen - line.length) ' '],
      prevLen := line.length }
  else st

/-- The whole streaming loop over the child's output lines, from the initial
state `stats = []`, `prev_len = 0` (source lines 168–169). -/
def runLoop (lines : List PyStr) : LoopState :=
  lines.foldl stepLine ⟨[], 0, []⟩

/-- `execute_rsync`, restricted to its data flow: the statistics buffer
returned for a given sequence of raw output lines. -/
def execute_rsync (lines : List PyStr) : List PyStr :=
  (runLoop lines).stats

/-!  ## SummaryWriter: `save_summary`

Side effects of the orchestration are modelled as an explicit trace.  The
float `duration` is modelled as an exact number of centiseconds, so the
`{duration:.2f}` format directive is integer division/remainder.  -/

/-- A side effect of the orchestration (console printing is modelled
separately, inside `LoopState`). -/
inductive Effect where
  | makeDirs : PyStr → Effect
  | runProc : List PyStr → Effect
  | writeFile : PyStr → PyStr → Effect
deriving DecidableEq, Repr

/-- A file system: contents by path.  `Effect.writeFile` (Python
`open(path, "w")` plus writes) replaces the file's content outright. -/
def applyEffect (fs : PyStr → Option PyStr) : Effect → (PyStr → Option PyStr)
  | .writeFile p c => fun q => if q = p then some c else fs q
  | _ => fs

/-- Python `"\n".join(lines)`. -/
def joinNl : List PyStr → PyStr
  | [] => []
  | [s] => s
  | s :: r₁ :: r => s ++ '\n' :: joinNl (r₁ :: r)

/-- `f"{duration:.2f}"` for a duration of `n` centiseconds. -/
def fmtCenti (n : Nat) : PyStr :=
  natDigits (n / 100) ++ '.' :: [digitChar (n % 100 / 10), digitChar (n % 100 % 10)]

/-- The separator written around the statistics block (source lines 208, 210). -/
def sepLine : PyStr := "\n────────────────────────────────────────\n".data

/-- The exact text written by `save_summary` (source lines 206–211): the
concatenation of its five `fh.write` calls. -/
def summaryText (timestamp : PyStr) (stats : List PyStr) (durCenti : Nat) : PyStr :=
  ("Rsync summary for ".data ++ timestamp ++ ['\n'])
    ++ sepLine
    ++ joinNl stats
    ++ sepLine
    ++ ('\n' :: "Duration: ".data ++ fmtCenti durCenti ++ " seconds\n".data)

/-- `save_summary(timestamp, stats, path, duration)` (source lines 197–211)
as the effect it performs. -/
def save_summary (timestamp : PyStr) (stats : List PyStr) (path : PyStr)
    (durCenti : Nat) : Effect :=
  .writeFile path (summaryText timestamp stats durCenti)

/-!  ## Orchestrator: `run_rsync` and the backup-directory naming of `main` -/

/-- The fixed exclusion pattern of `run_rsync` (source line 245). -/
def excludePattern : PyStr := "000_rsync_backup_*".data

/-- The base name of the backup directory created by `main`
(source line 285): the fixed prefix followed by the run timestamp. -/
def backupDirName (timestamp : PyStr) : PyStr :=
  "000_rsync_backup_".data ++ timestamp

/-- The log file path of `run_rsync` (source line 248). -/
def logFilePath (backup_dir timestamp : PyStr) : PyStr :=
  pyJoin backup_dir ("000_rsync_log_".data ++ timestamp ++ ".log".data)

/-- `run_rsync(src, dst, backup_dir, dry_run)` (source lines 233–260) as its
trace of file-system/process effects, given the environment inputs it reads:
the timestamp `datetime.now()` produced, the child's output lines, and the
measured duration. -/
def run_rsync (src dst backup_dir : PyStr) (dry_run : Bool)
    (timestamp : PyStr) (childOutput : List PyStr) (durCenti : Nat) : List Effect :=
  (if dry_run then [] else [Effect.makeDirs backup_dir])
    ++ [Effect.runProc (build_rsync_command src dst backup_dir excludePattern dry_run)]
    ++ (if dry_run then []
        else [save_summary timestamp (execute_rsync childOutput)
                (logFilePath backup_dir timestamp) durCenti])

/-!  ## Glob matching

`excludePattern` is handed to rsync as a glob; standard glob semantics
(`*` matches any character sequence) decide whether a directory name is
excluded.  For a pattern that is a literal prefix followed by one `*`, a
name matches exactly when it starts with that literal prefix. -/

/-- Glob match: `*` matches any (possibly empty) character sequence, any
other pattern character matches itself. -/
def globMatch : PyStr → PyStr → Bool
  | [], s => s.isEmpty
  | '*' :: ps, s => s.tails.any (fun t => globMatch ps t)
  | p :: ps, s =>
    match s with
    | [] => false
    | c :: t => p = c && globMatch ps t

example : globMatch excludePattern (backupDirName "2025-01-01_12-00-00".data) = true := by
  decide

/-!  ## General list lemmas -/

lemma dropWhile_all_append (p : Char → Bool) (w rest : PyStr)
    (h : ∀ c ∈ w, p c = true) :
    (w ++ rest).dropWhile p = rest.dropWhile p := by
  induction w with
  | nil => rfl
  | cons c w ih =>
    rw [List.cons_append, List.dropWhile_cons_of_pos (h c (by simp))]
    exact ih fun c hc => h c (by simp [hc])

lemma takeWhile_all_append (p : Char → Bool) (w rest : PyStr)
    (h : ∀ c ∈ w, p c = true) :
    (w ++ rest).takeWhile p = w ++ rest.takeWhile p := by
  induction w with
  | nil => rfl
  | cons c w ih =>
    rw [List.cons_append, List.takeWhile_cons_of_pos (h c (by simp)), List.cons_append,
      ih fun c hc => h c (by simp [hc])]

lemma dropWhile_idem (p : Char → Bool) (l : PyStr) :
    (l.dropWhile p).dropWhile p = l.dropWhile p := by
  cases h : l.dropWhile p with
  | nil => rfl
  | cons c t =>
    have hp := List.head?_dropWhile_not p l
    rw [h] at hp
    simp only [List.head?_cons] at hp
    exact List.dropWhile_cons_of_neg (by simp [hp])

lemma ne_of_append_longer (a b ex : PyStr) (h : a.length < b.length) : a ≠ b ++ ex := by
  intro he
  have := congrArg List.length he
  simp [List.length_append] at this
  omega

/-!  ## C2: source-path normalization in `build_rsync_command` -/

lemma rstripChar_concat_self (c : Char) (s : PyStr) :
    rstripChar c (s ++ [c]) = rstripChar c s := by
  unfold rstripChar
  rw [List.reverse_append, List.reverse_cons, List.reverse_nil, List.nil_append,
    List.cons_append, List.nil_append, List.dropWhile_cons_of_pos (by simp)]

lemma rstripChar_of_rstripChar_concat (c : Char) (s : PyStr) :
    rstripChar c (rstripChar c s ++ [c]) = rstripChar c s := by
  rw [rstripChar_concat_self]
  unfold rstripChar
  rw [List.reverse_reverse, dropWhile_idem]

/-- C2: `build_rsync_command` normalizes the source idempotently.  The built
command ends in the normalized source followed by the destination; the
normalized source ends in the path separator (`getLast? = some osSep`), and
stripping all trailing separators from it removes exactly one character, so
it carries exactly one trailing separator; normalization is idempotent; and
a caller-supplied trailing separator does not change the produced argument
sequence.  Determinism holds by construction: the embedding of
`build_rsync_command` is a pure function of its five arguments. -/
theorem C2_build_normalizes_source (src dst bd ex : PyStr) (dr : Bool) :
    (∃ front, build_rsync_command src dst bd ex dr = front ++ [src_with_slash src, dst])
    ∧ (src_with_slash src).getLast? = some osSep
    ∧ (src_with_slash src).length = (rstripChar osSep (src_with_slash src)).length + 1
    ∧ src_with_slash (src_with_slash src) = src_with_slash src
    ∧ build_rsync_command (src ++ [osSep]) dst bd ex dr
        = build_rsync_command src dst bd ex dr := by
  have hstrip : rstripChar osSep (src_with_slash src) = rstripChar osSep src :=
    rstripChar_of_rstripChar_concat osSep src
  refine ⟨⟨"rsync".data :: (if dr then "--dry-run".data :: baseOpts bd ex else baseOpts bd ex), ?_⟩,
    ?_, ?_, ?_, ?_⟩
  · cases dr <;> simp [build_rsync_command]
  · exact List.getLast?_concat _
  · rw [hstrip]; simp [src_with_slash]
  · unfold src_with_slash
    rw [rstripChar_of_rstripChar_concat]
  · unfold build_rsync_command src_with_slash
    rw [rstripChar_concat_self]

/-!  ## C4: mandatory options and argument order -/

/-- C4: for all inputs, the built command is the tool name first, then the
flags, then the source, then the destination last; and the flags always
contain the archive/human-readable option `-ah`, `--delete`, the
statistics/progress option, the exclusion option for the given pattern, and
the `--backup`/`--backup-dir` pair targeting the given backup directory. -/
theorem C4_build_required_options (src dst bd ex : PyStr) (dr : Bool) :
    ∃ flags,
      build_rsync_command src dst bd ex dr
          = "rsync".data :: flags ++ [src_with_slash src, dst]
        ∧ "-ah".data ∈ flags
        ∧ "--delete".data ∈ flags
        ∧ "--info=stats2,progress2".data ∈ flags
        ∧ ("--exclude=".data ++ ex) ∈ flags
        ∧ "--backup".data ∈ flags
        ∧ ("--backup-dir=".data ++ bd) ∈ flags := by
  refine ⟨(if dr then ["--dry-run".data] else []) ++ baseOpts bd ex, ?_, ?_, ?_, ?_, ?_, ?_, ?_⟩
  · cases dr <;> simp [build_rsync_command, baseOpts]
  all_goals cases dr <;> simp [baseOpts]

/-!  ## C5: the dry-run flag -/

lemma build_shape (src dst bd ex : PyStr) (dr : Bool) :
    build_rsync_command src dst bd ex dr
      = ("rsync".data :: (if dr then ["--dry-run".data] else []) ++ baseOpts bd ex)
          ++ [src_with_slash src, dst] := by
  cases dr <;> simp [build_rsync_command]

lemma dropLast_two (L : List PyStr) (a b : PyStr) :
    (L ++ [a, b]).dropLast.dropLast = L := by
  have : L ++ [a, b] = (L ++ [a]) ++ [b] := by simp
  rw [this, List.dropLast_concat, List.dropLast_concat]

lemma dry_run_notin_base (bd ex : PyStr) :
    "--dry-run".data ∉ "rsync".data :: baseOpts bd ex := by
  intro hmem
  simp only [baseOpts, List.mem_cons, List.not_mem_nil, or_false] at hmem
  rcases hmem with h | h | h | h | h | h | h
  · exact absurd h (by decide)
  · exact absurd h (by decide)
  · exact absurd h (by decide)
  · exact absurd h (by decide)
  · exact ne_of_append_longer _ _ _ (by decide) h
  · exact absurd h (by decide)
  · exact ne_of_append_longer _ _ _ (by decide) h

/-- C5: the `--dry-run` flag appears among the arguments that precede the two
trailing positional ones (source and destination, identified by the last two
conjuncts) exactly when the dry-run flag is true. -/
theorem C5_dry_run_flag_iff (src dst bd ex : PyStr) (dr : Bool) :
    ("--dry-run".data ∈ (build_rsync_command src dst bd ex dr).dropLast.dropLast ↔ dr = true)
    ∧ (build_rsync_command src dst bd ex dr).dropLast.dropLast
        = "rsync".data :: (if dr then ["--dry-run".data] else []) ++ baseOpts bd ex
    ∧ (build_rsync_command src dst bd ex dr).getLast? = some dst
    ∧ (build_rsync_command src dst bd ex dr).dropLast.getLast? = some (src_with_slash src) := by
  have hs := build_shape src dst bd ex dr
  have hdrop : (build_rsync_command src dst bd ex dr).dropLast.dropLast
      = "rsync".data :: (if dr then ["--dry-run".data] else []) ++ baseOpts bd ex := by
    rw [hs, dropLast_two]
  refine ⟨?_, hdrop, ?_, ?_⟩
  · rw [hdrop]
    cases dr with
    | true =>
      rw [show (if (true = true) then ["--dry-run".data] else []) = ["--dry-run".data] from rfl]
      exact iff_of_true (by simp) rfl
    | false =>
      rw [show (if (false = true) then ["--dry-run".data] else []) = ([] : List PyStr) from rfl]
      exact iff_of_false (dry_run_notin_base bd ex) (by decide)
  · rw [hs]
    have : ("rsync".data :: (if dr then ["--dry-run".data] else []) ++ baseOpts bd ex)
        ++ [src_with_slash src, dst]
        = (("rsync".data :: (if dr then ["--dry-run".data] else []) ++ baseOpts bd ex)
            ++ [src_with_slash src]) ++ [dst] := by simp
    rw [this, List.getLast?_concat]
  · rw [hs]
    have : ("rsync".data :: (if dr then ["--dry-run".data] else []) ++ baseOpts bd ex)
        ++ [src_with_slash src, dst]
        = (("rsync".data :: (if dr then ["--dry-run".data] else []) ++ baseOpts bd ex)
            ++ [src_with_slash src]) ++ [dst] := by simp
    rw [this, List.dropLast_concat, List.getLast?_concat]

/-!  ## C6: dry-run produces no backup artifacts -/

/-- C6: with the dry-run flag set, the orchestrator's effect trace is exactly
one child-process invocation — no backup directory creation, no log-file
write — while with the flag unset the trace contains exactly the directory
creation before and the summary write after the same invocation. -/
theorem C6_dry_run_no_artifacts (src dst bd ts : PyStr) (out : List PyStr) (dur : Nat) :
    run_rsync src dst bd true ts out dur
        = [Effect.runProc (build_rsync_command src dst bd excludePattern true)]
    ∧ run_rsync src dst bd false ts out dur
        = [Effect.makeDirs bd,
           Effect.runProc (build_rsync_command src dst bd excludePattern false),
           Effect.writeFile (logFilePath bd ts)
             (summaryText ts (execute_rsync out) dur)] := by
  exact ⟨rfl, rfl⟩

/-!  ## C1: the backup directory always matches the exclusion glob -/

lemma globMatch_star (s : PyStr) : globMatch ['*'] s = true := by
  rw [show globMatch ['*'] s = (s.tails.any fun t => globMatch [] t) from by
    simp [globMatch]]
  rw [List.any_eq_true]
  exact ⟨[], (List.mem_tails _ _).2 List.nil_suffix, rfl⟩

lemma globMatch_backupDirName (ts : PyStr) :
    globMatch excludePattern (backupDirName ts) = true := by
  show globMatch
      ('0' :: '0' :: '0' :: '_' :: 'r' :: 's' :: 'y' :: 'n' :: 'c' :: '_' ::
        'b' :: 'a' :: 'c' :: 'k' :: 'u' :: 'p' :: '_' :: ['*'])
      ('0' :: '0' :: '0' :: '_' :: 'r' :: 's' :: 'y' :: 'n' :: 'c' :: '_' ::
        'b' :: 'a' :: 'c' :: 'k' :: 'u' :: 'p' :: '_' :: ts) = true
  simp [globMatch]

/-- C1: the backup directory name built by the orchestrator — the fixed
prefix `000_rsync_backup_` followed by any run timestamp — always matches
the fixed exclusion glob `000_rsync_backup_*`, and the command the
orchestrator hands to rsync (for the backup directory `main` nests inside
the destination) carries the exclusion option for exactly that glob; hence
the run's own backup directory and every prior one are excluded. -/
theorem C1_backup_dir_always_excluded (src dst ts : PyStr) (dr : Bool)
    (out : List PyStr) (dur : Nat) :
    (∀ ts2, globMatch excludePattern (backupDirName ts2) = true)
    ∧ ∃ cmd,
        Effect.runProc cmd
            ∈ run_rsync src dst (pyJoin dst (backupDirName ts)) dr ts out dur
          ∧ ("--exclude=".data ++ excludePattern) ∈ cmd := by
  refine ⟨globMatch_backupDirName,
    build_rsync_command src dst (pyJoin dst (backupDirName ts)) excludePattern dr, ?_, ?_⟩
  · unfold run_rsync
    cases dr <;> simp
  · rw [build_shape]
    simp [baseOpts]

/-!  ## C3 and C9: classification of the streamed output -/

/-- The trimmed nonblank statistic lines of a raw line sequence, in arrival
order. -/
def statLinesOf (lines : List PyStr) : List PyStr :=
  lines.filterMap fun raw =>
    if pyRstrip raw ≠ [] ∧ isStatLine (pyRstrip raw) = true then some (pyRstrip raw)
    else none

lemma stepLine_classify (st : LoopState) (raw : PyStr) :
    (pyRstrip raw = [] ∧ stepLine st raw = st)
    ∨ (pyRstrip raw ≠ [] ∧ isStatLine (pyRstrip raw) = true
        ∧ stepLine st raw = { st with stats := st.stats ++ [pyRstrip raw] })
    ∨ (pyRstrip raw ≠ [] ∧ isStatLine (pyRstrip raw) = false
        ∧ isProgressLine (pyRstrip raw) = true
        ∧ stepLine st raw =
            { stats := st.stats,
              prevLen := (pyRstrip raw).length,
              rendered := st.rendered ++
                ['\r' :: pyRstrip raw
                  ++ List.replicate (st.prevLen - (pyRstrip raw).length) ' '] })
    ∨ (pyRstrip raw ≠ [] ∧ isStatLine (pyRstrip raw) = false
        ∧ isProgressLine (pyRstrip raw) = false ∧ stepLine st raw = st) := by
  unfold stepLine
  by_cases h1 : pyRstrip raw = []
  · exact Or.inl ⟨h1, by rw [if_pos h1]⟩
  · cases h2 : isStatLine (pyRstrip raw) with
    | true =>
      refine Or.inr (Or.inl ⟨h1, rfl, ?_⟩)
      rw [if_neg h1, if_pos h2]
    | false =>
      cases h3 : isProgressLine (pyRstrip raw) with
      | true =>
        refine Or.inr (Or.inr (Or.inl ⟨h1, rfl, rfl, ?_⟩))
        rw [if_neg h1, if_neg (by simp [h2]), if_pos h3]
      | false =>
        refine Or.inr (Or.inr (Or.inr ⟨h1, rfl, rfl, ?_⟩))
        rw [if_neg h1, if_neg (by simp [h2]), if_neg (by simp [h3])]

lemma foldl_stepLine_stats (lines : List PyStr) :
    ∀ st : LoopState, (lines.foldl stepLine st).stats = st.stats ++ statLinesOf lines := by
  induction lines with
  | nil => intro st; simp [statLinesOf]
  | cons raw rest ih =>
    intro st
    rw [List.foldl_cons, ih]
    have hsplit : statLinesOf (raw :: rest)
        = (if pyRstrip raw ≠ [] ∧ isStatLine (pyRstrip raw) = true
            then [pyRstrip raw] else []) ++ statLinesOf rest := by
      unfold statLinesOf
      rw [List.filterMap_cons]
      by_cases hc : pyRstrip raw ≠ [] ∧ isStatLine (pyRstrip raw) = true
      · rw [if_pos hc, if_pos hc]
        rfl
      · rw [if_neg hc, if_neg hc]
        rfl
    rw [hsplit]
    rcases stepLine_classify st raw with ⟨h1, he⟩ | ⟨h1, h2, he⟩ | ⟨h1, h2, h3, he⟩
      | ⟨h1, h2, h3, he⟩
    · rw [he, if_neg (by simp [h1]), List.nil_append]
    · rw [he, if_pos ⟨h1, h2⟩]
      simp
    · rw [he, if_neg (by simp [h2]), List.nil_append]
    · rw [he, if_neg (by simp [h2]), List.nil_append]

/-- C3: per line, classification is total and mutually exclusive, in the
source's priority order (blank discarded; else statistic-marker lines
buffered; else progress-marker lines rendered; else dropped), a line never
changes both the statistics buffer and the rendered console line, and the
statistics buffer collects exactly the trimmed nonblank marker lines in
arrival order. -/
theorem C3_classification_total_exclusive (st : LoopState) (raw : PyStr)
    (lines : List PyStr) :
    ((stepLine st raw).stats = st.stats ∨ (stepLine st raw).rendered = st.rendered)
    ∧ ((pyRstrip raw = [] ∧ stepLine st raw = st)
        ∨ (pyRstrip raw ≠ [] ∧ isStatLine (pyRstrip raw) = true
            ∧ stepLine st raw = { st with stats := st.stats ++ [pyRstrip raw] })
        ∨ (pyRstrip raw ≠ [] ∧ isStatLine (pyRstrip raw) = false
            ∧ isProgressLine (pyRstrip raw) = true
            ∧ stepLine st raw =
                { stats := st.stats,
                  prevLen := (pyRstrip raw).length,
                  rendered := st.rendered ++
                    ['\r' :: pyRstrip raw
                      ++ List.replicate (st.prevLen - (pyRstrip raw).length) ' '] })
        ∨ (pyRstrip raw ≠ [] ∧ isStatLine (pyRstrip raw) = false
            ∧ isProgressLine (pyRstrip raw) = false ∧ stepLine st raw = st))
    ∧ execute_rsync lines = statLinesOf lines := by
  refine ⟨?_, stepLine_classify st raw, ?_⟩
  · rcases stepLine_classify st raw with ⟨_, he⟩ | ⟨_, _, he⟩ | ⟨_, _, _, he⟩ | ⟨_, _, _, he⟩
    · exact Or.inl (by rw [he])
    · exact Or.inr (by rw [he])
    · exact Or.inl (by rw [he])
    · exact Or.inl (by rw [he])
  · unfold execute_rsync runLoop
    rw [foldl_stepLine_stats]
    rfl

/-- C9: a progress line is rendered by appending exactly one console write
that starts with a carriage return, consists of the trimmed line padded with
trailing spaces up to the previous rendered length, and is therefore never
shorter than the text it overwrites; the remembered length becomes the new
line's length. -/
theorem C9_progress_overwrite_padding (st : LoopState) (raw : PyStr)
    (h1 : pyRstrip raw ≠ []) (h2 : isStatLine (pyRstrip raw) = false)
    (h3 : isProgressLine (pyRstrip raw) = true) :
    (stepLine st raw).rendered
        = st.rendered
            ++ ['\r' :: pyRstrip raw
                ++ List.replicate (st.prevLen - (pyRstrip raw).length) ' ']
    ∧ ('\r' :: pyRstrip raw
        ++ List.replicate (st.prevLen - (pyRstrip raw).length) ' ').head? = some '\r'
    ∧ ('\r' :: pyRstrip raw
        ++ List.replicate (st.prevLen - (pyRstrip raw).length) ' ').length
        = 1 + max (pyRstrip raw).length st.prevLen
    ∧ st.prevLen + 1
        ≤ ('\r' :: pyRstrip raw
            ++ List.replicate (st.prevLen - (pyRstrip raw).length) ' ').length
    ∧ (stepLine st raw).prevLen = (pyRstrip raw).length := by
  have he : stepLine st raw =
      { stats := st.stats,
        prevLen := (pyRstrip raw).length,
        rendered := st.rendered ++
          ['\r' :: pyRstrip raw
            ++ List.replicate (st.prevLen - (pyRstrip raw).length) ' '] } := by
    unfold stepLine
    rw [if_neg h1, if_neg (by simp [h2]), if_pos h3]
  refine ⟨by rw [he], rfl, ?_, ?_, by rw [he]⟩
  · simp only [List.length_cons, List.length_append, List.length_replicate]
    omega
  · simp only [List.length_cons, List.length_append, List.length_replicate]
    omega

/-- Witness for C9 at a concrete progress line and loop state. -/
theorem C9_progress_overwrite_padding_witness :
    pyRstrip "  1.2MB/s  45% (xfr#5, to-chk=3/10)   ".data ≠ []
    ∧ isStatLine (pyRstrip "  1.2MB/s  45% (xfr#5, to-chk=3/10)   ".data) = false
    ∧ isProgressLine (pyRstrip "  1.2MB/s  45% (xfr#5, to-chk=3/10)   ".data) = true
    ∧ (stepLine ⟨[], 60, []⟩ "  1.2MB/s  45% (xfr#5, to-chk=3/10)   ".data).prevLen
        = (pyRstrip "  1.2MB/s  45% (xfr#5, to-chk=3/10)   ".data).length :=
  ⟨by decide, by decide, by decide,
    (C9_progress_overwrite_padding ⟨[], 60, []⟩ _ (by decide) (by decide) (by decide)).2.2.2.2⟩

/-!  ## C8: structure of the persisted summary -/

/-- The dash line inside `sepLine`, without the surrounding newlines. -/
def dashLine : PyStr := "────────────────────────────────────────".data

lemma splitChar_no_sep (sep : Char) (a : PyStr) (h : ∀ c ∈ a, c ≠ sep) :
    splitChar sep a = [a] := by
  induction a with
  | nil => rfl
  | cons c t ih =>
    simp only [splitChar]
    rw [if_neg (h c (by simp)), ih fun c hc => h c (by simp [hc])]

lemma splitChar_cons_sep (sep : Char) (rest : PyStr) :
    splitChar sep (sep :: rest) = [] :: splitChar sep rest := by
  simp [splitChar]

lemma splitChar_sep_append (sep : Char) (a rest : PyStr) (h : ∀ c ∈ a, c ≠ sep) :
    splitChar sep (a ++ sep :: rest) = a :: splitChar sep rest := by
  induction a with
  | nil => exact splitChar_cons_sep sep rest
  | cons c t ih =>
    rw [List.cons_append]
    simp only [splitChar]
    rw [if_neg (h c (by simp)), ih fun c hc => h c (by simp [hc])]

lemma splitChar_joinNl_append (rest : PyStr) :
    ∀ stats : List PyStr, stats ≠ [] → (∀ s ∈ stats, ∀ c ∈ s, c ≠ '\n') →
      splitChar '\n' (joinNl stats ++ '\n' :: rest) = stats ++ splitChar '\n' rest := by
  intro stats
  induction stats with
  | nil => intro hne _; exact absurd rfl hne
  | cons s tail ih =>
    intro _ hnl
    cases tail with
    | nil =>
      rw [show joinNl [s] = s from rfl]
      rw [splitChar_sep_append '\n' s _ (hnl s (by simp))]
      rfl
    | cons s1 r =>
      rw [show joinNl (s :: s1 :: r) = s ++ '\n' :: joinNl (s1 :: r) from rfl]
      rw [show (s ++ '\n' :: joinNl (s1 :: r)) ++ '\n' :: rest
          = s ++ '\n' :: (joinNl (s1 :: r) ++ '\n' :: rest) from by simp]
      rw [splitChar_sep_append '\n' s _ (hnl s (by simp))]
      rw [ih (by simp) fun t ht c hc => hnl t (by simp [ht]) c hc]
      rfl

lemma digitChar_ne_nl (d : Nat) : digitChar d ≠ '\n' := by
  unfold digitChar
  rcases Nat.lt_or_ge d 10 with h | h
  · interval_cases d <;> decide
  · rw [List.getD_eq_getElem?_getD, List.getElem?_eq_none (by simpa using h)]
    decide

lemma natDigitsF_chars (fuel : Nat) :
    ∀ n, ∀ c ∈ natDigitsF fuel n, ∃ d, c = digitChar d := by
  induction fuel with
  | zero => intro n c hc; exact ⟨n, by simpa [natDigitsF] using hc⟩
  | succ fuel ih =>
    intro n c hc
    unfold natDigitsF at hc
    by_cases h : n < 10
    · rw [if_pos h] at hc
      exact ⟨n, by simpa using hc⟩
    · rw [if_neg h] at hc
      rcases List.mem_append.1 hc with hm | hm
      · exact ih (n / 10) c hm
      · exact ⟨n % 10, by simpa using hm⟩

lemma fmtCenti_ne_nl (n : Nat) : ∀ c ∈ fmtCenti n, c ≠ '\n' := by
  intro c hc
  unfold fmtCenti at hc
  rcases List.mem_append.1 hc with hm | hm
  · obtain ⟨d, hd⟩ := natDigitsF_chars _ _ c hm
    rw [hd]; exact digitChar_ne_nl d
  · rcases hm with _ | ⟨_, hm2⟩
    · decide
    · rcases hm2 with _ | ⟨_, hm3⟩
      · exact digitChar_ne_nl _
      · rcases hm3 with _ | ⟨_, hm4⟩
        · exact digitChar_ne_nl _
        · cases hm4

/-- C8: persisting the summary replaces the target file's content outright
(the result does not depend on the prior file-system state), and the written
bytes split on newlines into: a header line naming the run timestamp, a
blank line and the dash separator, the captured statistic lines verbatim in
original order (one per line), the dash separator and a blank line, a
trailing `Duration: <seconds with 2 decimals> seconds` line, and the empty
tail produced by the final newline.  The last conjunct exhibits the
two-decimal shape of the duration field. -/
theorem C8_summary_layout (ts : PyStr) (stats : List PyStr) (path : PyStr)
    (dur : Nat) (fs : PyStr → Option PyStr)
    (hts : ∀ c ∈ ts, c ≠ '\n')
    (hstats : stats ≠ [])
    (hnl : ∀ s ∈ stats, ∀ c ∈ s, c ≠ '\n') :
    applyEffect fs (save_summary ts stats path dur) path
        = some (summaryText ts stats dur)
    ∧ splitChar '\n' (summaryText ts stats dur)
        = ("Rsync summary for ".data ++ ts) :: [] :: dashLine :: stats
            ++ [dashLine, [],
                "Duration: ".data ++ fmtCenti dur ++ " seconds".data, []]
    ∧ fmtCenti dur
        = natDigits (dur / 100)
            ++ '.' :: [digitChar (dur % 100 / 10), digitChar (dur % 100 % 10)] := by
  have hlit1 : ∀ c ∈ "Rsync summary for ".data, c ≠ '\n' := by decide
  have hlit2 : ∀ c ∈ "Duration: ".data, c ≠ '\n' := by decide
  have hlit3 : ∀ c ∈ " seconds".data, c ≠ '\n' := by decide
  have hH : ∀ c ∈ "Rsync summary for ".data ++ ts, c ≠ '\n' := by
    intro c hc
    rcases List.mem_append.1 hc with hm | hm
    · exact hlit1 c hm
    · exact hts c hm
  have hdash : ∀ c ∈ dashLine, c ≠ '\n' := by decide
  have hDL : ∀ c ∈ "Duration: ".data ++ fmtCenti dur ++ " seconds".data, c ≠ '\n' := by
    intro c hc
    rcases List.mem_append.1 hc with hm | hm
    · rcases List.mem_append.1 hm with hm2 | hm2
      · exact hlit2 c hm2
      · exact fmtCenti_ne_nl dur c hm2
    · exact hlit3 c hm
  refine ⟨by simp [applyEffect, save_summary], ?_, rfl⟩
  have hshape : summaryText ts stats dur
      = ("Rsync summary for ".data ++ ts)
          ++ '\n' :: '\n' :: (dashLine
          ++ '\n' :: (joinNl stats
          ++ '\n' :: (dashLine
          ++ '\n' :: '\n' :: (("Duration: ".data ++ fmtCenti dur ++ " seconds".data)
          ++ '\n' :: [])))) := by
    unfold summaryText
    rw [show sepLine = '\n' :: dashLine ++ '\n' :: [] from by decide]
    simp
  rw [hshape]
  rw [splitChar_sep_append '\n' _ _ hH, splitChar_cons_sep,
    splitChar_sep_append '\n' _ _ hdash,
    splitChar_joinNl_append _ stats hstats hnl,
    splitChar_sep_append '\n' _ _ hdash, splitChar_cons_sep,
    splitChar_sep_append '\n' _ _ hDL]
  rfl

/-- Witness for C8 at a concrete timestamp, statistics list and duration. -/
theorem C8_summary_layout_witness :
    (∀ c ∈ "2025-01-01_12-00-00".data, c ≠ '\n')
    ∧ (["sent 1 bytes".data, "total size is 5".data] : List PyStr) ≠ []
    ∧ (∀ s ∈ (["sent 1 bytes".data, "total size is 5".data] : List PyStr),
        ∀ c ∈ s, c ≠ '\n')
    ∧ applyEffect (fun _ => none)
        (save_summary "2025-01-01_12-00-00".data
          ["sent 1 bytes".data, "total size is 5".data] "log".data 1234) "log".data
        = some (summaryText "2025-01-01_12-00-00".data
            ["sent 1 bytes".data, "total size is 5".data] 1234) :=
  ⟨by decide, by decide, by decide,
    (C8_summary_layout "2025-01-01_12-00-00".data
      ["sent 1 bytes".data, "total size is 5".data] "log".data 1234 (fun _ => none)
      (by decide) (by decide) (by decide)).1⟩

/-!  ## C10: the version tuple is never truncated -/

/-- C10: whenever parsing succeeds, the returned tuple is the full list of
numeric components of the matched version string, zero-padded on the right
to at least three entries — the components are a prefix of the tuple and the
tuple's length is the maximum of the component count and three, so nothing
is truncated.  On a four-component version the tuple has four entries, and
`check_rsync`'s minimum-version comparison compares tuples of unequal
length lexicographically (a strict prefix compares less). -/
theorem C10_version_tuple_not_truncated (output vs : PyStr) (parts : List Nat)
    (h : parse_rsync_version output = some (vs, parts)) :
    parts = (splitChar '.' vs).map pyInt
        ++ List.replicate (3 - ((splitChar '.' vs).map pyInt).length) 0
    ∧ (splitChar '.' vs).map pyInt <+: parts
    ∧ parts.length = max (splitChar '.' vs).length 3
    ∧ parse_rsync_version "rsync version 3.2.7.1 protocol 31".data
        = some ("3.2.7.1".data, [3, 2, 7, 1])
    ∧ check_rsync "rsync version 3.2.7.1 protocol 31".data = .ok "3.2.7.1".data
    ∧ check_rsync "rsync version 3.1.9.9.9".data = .tooOld "3.1.9.9.9".data
    ∧ pyListLt [3, 2, 7, 1] minVersion = false
    ∧ pyListLt [3, 1, 9, 9, 9] minVersion = true
    ∧ pyListLt [3, 2] [3, 2, 0] = true
    ∧ pyListLt [3, 2, 0] [3, 2] = false := by
  unfold parse_rsync_version at h
  cases hr : reSearchVersion output with
  | none => rw [hr] at h; exact absurd h (by simp)
  | some vs2 =>
    rw [hr] at h
    simp only [Option.some.injEq, Prod.mk.injEq] at h
    obtain ⟨hvs, hparts⟩ := h
    subst hvs
    refine ⟨?_, ?_, ?_, by decide, by decide, by decide, by decide, by decide,
      by decide, by decide⟩
    · rw [← hparts]; rfl
    · rw [← hparts]; exact ⟨_, rfl⟩
    · rw [← hparts]
      simp only [padTo3, List.length_append, List.length_replicate, List.length_map]
      omega

/-- Witness for C10 at a concrete four-component version output. -/
theorem C10_version_tuple_not_truncated_witness :
    parse_rsync_version "rsync version 3.2.7.1 protocol 31".data
        = some ("3.2.7.1".data, [3, 2, 7, 1])
    ∧ ([3, 2, 7, 1] : List Nat).length = max (splitChar '.' "3.2.7.1".data).length 3 :=
  ⟨by decide,
    (C10_version_tuple_not_truncated "rsync version 3.2.7.1 protocol 31".data
      "3.2.7.1".data [3, 2, 7, 1] (by decide)).2.2.1⟩

/-!  ## C7: what `parse_rsync_version` accepts

Spec-side predicates, written from the claim's words, against which the
matcher is characterized. -/

/-- Spec-side: the whole string has the dotted-numeric shape
`[0-9]+(\.[0-9]+)+` — at least two dot-separated components, each a
nonempty digit string. -/
def dottedNumeric (v : PyStr) : Bool :=
  decide (2 ≤ (splitChar '.' v).length)
    && (splitChar '.' v).all fun p => (!p.isEmpty) && p.all isDigit

/-- Spec-side, the claim's acceptance criterion: the output contains
`version` followed by whitespace and a dotted numeric version. -/
def ContainsVersionNumber (output : PyStr) : Prop :=
  ∃ pre w ver rest,
    output = pre ++ "version".data ++ w ++ ver ++ rest
    ∧ w ≠ [] ∧ (∀ c ∈ w, isWs c = true) ∧ dottedNumeric ver = true

/-- Spec-side, the amended acceptance criterion: the output contains
`rsync`, whitespace, `version`, whitespace, then a dotted numeric version. -/
def HasRsyncVersion (output : PyStr) : Prop :=
  ∃ pre w1 w2 ver rest,
    output = pre ++ "rsync".data ++ w1 ++ "version".data ++ w2 ++ ver ++ rest
    ∧ w1 ≠ [] ∧ (∀ c ∈ w1, isWs c = true)
    ∧ w2 ≠ [] ∧ (∀ c ∈ w2, isWs c = true)
    ∧ dottedNumeric ver = true

lemma ws_not_digit (c : Char) (h : isWs c = true) : isDigit c = false := by
  simp only [isWs, Bool.or_eq_true, decide_eq_true_eq] at h
  rcases h with ((((h | h) | h) | h) | h) | h <;> subst h <;> decide

lemma digit_not_ws (c : Char) (h : isDigit c = true) : isWs c = false := by
  cases hw : isWs c with
  | false => rfl
  | true => rw [ws_not_digit c hw] at h; cases h

lemma digit_ne_dot (c : Char) (h : isDigit c = true) : c ≠ '.' := by
  intro he
  subst he
  cases h

/-!  Inversion and introduction lemmas for each stage of the matcher. -/

lemma stripLit_eq (lit s r : PyStr) (h : stripLit lit s = some r) : s = lit ++ r := by
  unfold stripLit at h
  by_cases hp : lit.isPrefixOf s
  · rw [if_pos hp] at h
    obtain ⟨t, ht⟩ := List.isPrefixOf_iff_prefix.1 hp
    rw [← ht, Option.some.injEq] at h
    rw [← ht, ← h, List.drop_left]
  · rw [if_neg hp] at h
    cases h

lemma stripLit_intro (lit r : PyStr) : stripLit lit (lit ++ r) = some r := by
  unfold stripLit
  rw [if_pos (List.isPrefixOf_iff_prefix.2 (List.prefix_append lit r)), List.drop_left]

lemma takeWs1_eq (s r : PyStr) (h : takeWs1 s = some r) :
    ∃ w, s = w ++ r ∧ w ≠ [] ∧ (∀ c ∈ w, isWs c = true) := by
  unfold takeWs1 at h
  by_cases ht : s.takeWhile isWs = []
  · rw [if_pos ht] at h
    cases h
  · rw [if_neg ht, Option.some.injEq] at h
    exact ⟨s.takeWhile isWs, by rw [← h]; simp, ht,
      fun c hc => List.mem_takeWhile_imp hc⟩

lemma takeWs1_intro (w : PyStr) (c : Char) (t : PyStr) (hw : w ≠ [])
    (hws : ∀ x ∈ w, isWs x = true) (hc : isWs c = false) :
    takeWs1 (w ++ c :: t) = some (c :: t) := by
  unfold takeWs1
  rw [takeWhile_all_append _ _ _ hws, dropWhile_all_append _ _ _ hws,
    List.takeWhile_cons_of_neg (by simp [hc]), List.dropWhile_cons_of_neg (by simp [hc])]
  rw [if_neg (by simp [hw])]

lemma takeDigits1_eq (s : PyStr) (d r : PyStr) (h : takeDigits1 s = some (d, r)) :
    s = d ++ r ∧ d ≠ [] ∧ (∀ c ∈ d, isDigit c = true) := by
  unfold takeDigits1 at h
  by_cases ht : s.takeWhile isDigit = []
  · rw [if_pos ht] at h
    cases h
  · rw [if_neg ht, Option.some.injEq, Prod.mk.injEq] at h
    obtain ⟨hd, hr⟩ := h
    exact ⟨by rw [← hd, ← hr, List.takeWhile_append_dropWhile], by rw [← hd]; exact ht,
      fun c hc => List.mem_takeWhile_imp (by rw [hd]; exact hc)⟩

lemma takeDigits1_intro (d : PyStr) (c : Char) (t : PyStr) (hd : d ≠ [])
    (hdig : ∀ x ∈ d, isDigit x = true) (hc : isDigit c = false) :
    takeDigits1 (d ++ c :: t) = some (d, c :: t) := by
  unfold takeDigits1
  rw [takeWhile_all_append _ _ _ hdig, dropWhile_all_append _ _ _ hdig,
    List.takeWhile_cons_of_neg (by simp [hc]), List.dropWhile_cons_of_neg (by simp [hc])]
  rw [if_neg (by simp [hd])]
  simp

/-- The shape consumed by the greedy `(\.[0-9]+)*` scan: a concatenation of
groups, each a dot followed by a nonempty digit string. -/
inductive GShape : PyStr → Prop
  | nil : GShape []
  | grp (d g : PyStr) : d ≠ [] → (∀ c ∈ d, isDigit c = true) → GShape g →
      GShape ('.' :: (d ++ g))

lemma gshape_of_cons_digits (c : Char) (hdc : isDigit c = true) (d0 g0 : PyStr)
    (hd0 : ∀ x ∈ d0, isDigit x = true) (hg0 : GShape g0) :
    GShape ('.' :: (c :: d0 ++ g0)) :=
  GShape.grp (c :: d0) g0 (by simp) (by
    intro x hx
    rcases hx with _ | ⟨_, hx2⟩
    · exact hdc
    · exact hd0 x hx2) hg0

lemma dgDigits_nil : dgDigits [] = ([], []) := rfl

lemma dgDigits_one (c : Char) :
    dgDigits [c] = if isDigit c = true then ([c], []) else ([], [c]) := rfl

lemma dgDigits_two (c d : Char) (t : PyStr) :
    dgDigits (c :: d :: t)
      = if isDigit c = true then (c :: (dgDigits (d :: t)).1, (dgDigits (d :: t)).2)
        else if (c = '.' && isDigit d) = true
          then ('.' :: d :: (dgDigits t).1, (dgDigits t).2)
          else ([], c :: d :: t) := rfl

lemma dotGroups_two (c d : Char) (t : PyStr) :
    dotGroups (c :: d :: t)
      = if (c = '.' && isDigit d) = true then (c :: d :: (dgDigits t).1, (dgDigits t).2)
        else ([], c :: d :: t) := rfl

lemma dgDigits_sound_aux (n : Nat) : ∀ s : PyStr, s.length ≤ n → ∀ g r,
    dgDigits s = (g, r) →
    s = g ++ r ∧ ∃ d0 g0, g = d0 ++ g0 ∧ (∀ c ∈ d0, isDigit c = true) ∧ GShape g0 := by
  induction n with
  | zero =>
    intro s hs g r h
    cases s with
    | nil =>
      rw [dgDigits_nil, Prod.mk.injEq] at h
      obtain ⟨hg, hr⟩ := h
      exact ⟨by rw [← hg, ← hr]; rfl, [], [], by rw [← hg]; rfl, by simp, GShape.nil⟩
    | cons c t => simp at hs
  | succ n ih =>
    intro s hs g r h
    cases s with
    | nil =>
      rw [dgDigits_nil, Prod.mk.injEq] at h
      obtain ⟨hg, hr⟩ := h
      exact ⟨by rw [← hg, ← hr]; rfl, [], [], by rw [← hg]; rfl, by simp, GShape.nil⟩
    | cons c t =>
      cases t with
      | nil =>
        rw [dgDigits_one] at h
        by_cases hdc : isDigit c = true
        · rw [if_pos hdc, Prod.mk.injEq] at h
          obtain ⟨hg, hr⟩ := h
          refine ⟨by rw [← hg, ← hr]; rfl, [c], [], by rw [← hg]; rfl, ?_, GShape.nil⟩
          intro x hx
          rcases hx with _ | ⟨_, hx2⟩
          · exact hdc
          · cases hx2
        · rw [if_neg hdc, Prod.mk.injEq] at h
          obtain ⟨hg, hr⟩ := h
          exact ⟨by rw [← hg, ← hr]; rfl, [], [], by rw [← hg]; rfl, by simp, GShape.nil⟩
      | cons d t2 =>
        rw [dgDigits_two] at h
        by_cases hdc : isDigit c = true
        · rw [if_pos hdc] at h
          rcases hdg : dgDigits (d :: t2) with ⟨g1, r1⟩
          rw [hdg, Prod.mk.injEq] at h
          obtain ⟨hg, hr⟩ := h
          obtain ⟨ht, d0, g0, hgd, hd0, hg0⟩ :=
            ih (d :: t2) (by simp at hs ⊢; omega) g1 r1 hdg
          refine ⟨by rw [← hg, ← hr]; rw [show c :: d :: t2 = c :: (d :: t2) from rfl, ht]; rfl,
            c :: d0, g0, ?_, ?_, hg0⟩
          · rw [← hg, hgd]; rfl
          · intro x hx
            rcases hx with _ | ⟨_, hx2⟩
            · exact hdc
            · exact hd0 x hx2
        · rw [if_neg hdc] at h
          by_cases hcond : (c = '.' && isDigit d) = true
          · rw [if_pos hcond] at h
            rcases hdg : dgDigits t2 with ⟨g1, r1⟩
            rw [hdg, Prod.mk.injEq] at h
            obtain ⟨hg, hr⟩ := h
            obtain ⟨ht, d0, g0, hgd, hd0, hg0⟩ :=
              ih t2 (by simp at hs ⊢; omega) g1 r1 hdg
            rw [Bool.and_eq_true, decide_eq_true_eq] at hcond
            obtain ⟨hcdot, hddig⟩ := hcond
            subst hcdot
            refine ⟨by rw [← hg, ← hr, ht]; rfl, [], '.' :: d :: g1, by rw [← hg]; rfl,
              by simp, ?_⟩
            rw [show ('.' :: d :: g1) = '.' :: (d :: d0 ++ g0) from by rw [hgd]; rfl]
            exact gshape_of_cons_digits d hddig d0 g0 hd0 hg0
          · rw [if_neg hcond, Prod.mk.injEq] at h
            obtain ⟨hg, hr⟩ := h
            exact ⟨by rw [← hg, ← hr]; rfl, [], [], by rw [← hg]; rfl, by simp, GShape.nil⟩

lemma dgDigits_sound (s g r : PyStr) (h : dgDigits s = (g, r)) :
    s = g ++ r ∧ ∃ d0 g0, g = d0 ++ g0 ∧ (∀ c ∈ d0, isDigit c = true) ∧ GShape g0 :=
  dgDigits_sound_aux s.length s le_rfl g r h

lemma dotGroups_sound (s g r : PyStr) (h : dotGroups s = (g, r)) (hg : g ≠ []) :
    s = g ++ r ∧ GShape g := by
  cases s with
  | nil =>
    rw [show dotGroups [] = ([], []) from rfl, Prod.mk.injEq] at h
    exact absurd h.1.symm hg
  | cons c t =>
    cases t with
    | nil =>
      rw [show dotGroups [c] = ([], [c]) from rfl, Prod.mk.injEq] at h
      exact absurd h.1.symm hg
    | cons d t2 =>
      rw [dotGroups_two] at h
      by_cases hcond : (c = '.' && isDigit d) = true
      · rw [if_pos hcond] at h
        rcases hdg : dgDigits t2 with ⟨g1, r1⟩
        rw [hdg, Prod.mk.injEq] at h
        obtain ⟨hgeq, hreq⟩ := h
        obtain ⟨ht, d0, g0, hgd, hd0, hg0⟩ := dgDigits_sound t2 g1 r1 hdg
        rw [Bool.and_eq_true, decide_eq_true_eq] at hcond
        obtain ⟨hcdot, hddig⟩ := hcond
        subst hcdot
        refine ⟨by rw [← hgeq, ← hreq, ht]; rfl, ?_⟩
        rw [← hgeq, show ('.' :: d :: g1) = '.' :: (d :: d0 ++ g0) from by rw [hgd]; rfl]
        exact gshape_of_cons_digits d hddig d0 g0 hd0 hg0
      · rw [if_neg hcond, Prod.mk.injEq] at h
        exact absurd h.1.symm hg

/-!  Relating `GShape` and `dottedNumeric`. -/

lemma splitChar_gshape : ∀ g, GShape g → ∀ d : PyStr, (∀ c ∈ d, isDigit c = true) →
    ∃ parts, splitChar '.' (d ++ g) = d :: parts
      ∧ (∀ p ∈ parts, p ≠ [] ∧ ∀ c ∈ p, isDigit c = true)
      ∧ (g ≠ [] → parts ≠ []) := by
  intro g hg
  induction hg with
  | nil =>
    intro d hd
    refine ⟨[], ?_, by simp, by simp⟩
    rw [List.append_nil]
    exact splitChar_no_sep '.' d fun c hc => digit_ne_dot c (hd c hc)
  | grp d1 g1 hne hdig hg1 ih =>
    intro d hd
    obtain ⟨parts1, hp1, hcond1, _⟩ := ih d1 hdig
    refine ⟨d1 :: parts1, ?_, ?_, by simp⟩
    · rw [splitChar_sep_append '.' d _ fun c hc => digit_ne_dot c (hd c hc), hp1]
    · intro p hp
      rcases hp with _ | ⟨_, hp2⟩
      · exact ⟨hne, hdig⟩
      · exact hcond1 p hp2

lemma dottedNumeric_of_gshape (d g : PyStr) (hd : d ≠ [])
    (hdig : ∀ c ∈ d, isDigit c = true) (hg : GShape g) (hgne : g ≠ []) :
    dottedNumeric (d ++ g) = true := by
  obtain ⟨parts, hp, hcond, hnonnil⟩ := splitChar_gshape g hg d hdig
  unfold dottedNumeric
  rw [hp, Bool.and_eq_true]
  constructor
  · rw [decide_eq_true_eq]
    cases hpp : parts with
    | nil => exact absurd hpp (hnonnil hgne)
    | cons q qs => simp
  · rw [List.all_eq_true]
    intro p hp2
    rcases hp2 with _ | ⟨_, hp3⟩
    · rw [Bool.and_eq_true]
      exact ⟨by simp [hd], List.all_eq_true.2 fun c hc => hdig c hc⟩
    · obtain ⟨hne2, hdig2⟩ := hcond p hp3
      rw [Bool.and_eq_true]
      exact ⟨by simp [hne2], List.all_eq_true.2 fun c hc => hdig2 c hc⟩

lemma splitChar_ne_nil (sep : Char) : ∀ v : PyStr, splitChar sep v ≠ [] := by
  intro v
  cases v with
  | nil => simp [splitChar]
  | cons c t =>
    simp only [splitChar]
    by_cases hc : c = sep
    · rw [if_pos hc]; simp
    · rw [if_neg hc]
      cases hs : splitChar sep t with
      | nil => simp
      | cons h r => simp

lemma splitChar_eq_cons (sep : Char) : ∀ (v p : PyStr) (ps : List PyStr),
    splitChar sep v = p :: ps →
    (ps = [] ∧ v = p) ∨ ∃ t, v = p ++ sep :: t ∧ splitChar sep t = ps := by
  intro v
  induction v with
  | nil =>
    intro p ps h
    rw [show splitChar sep [] = [[]] from rfl] at h
    injection h with h1 h2
    exact Or.inl ⟨h2.symm, h1⟩
  | cons c t ih =>
    intro p ps h
    simp only [splitChar] at h
    by_cases hc : c = sep
    · rw [if_pos hc] at h
      injection h with h1 h2
      exact Or.inr ⟨t, by rw [← h1, hc]; simp, h2⟩
    · rw [if_neg hc] at h
      cases hs : splitChar sep t with
      | nil => exact absurd hs (splitChar_ne_nil sep t)
      | cons h0 r =>
        rw [hs] at h
        injection h with h1 h2
        rcases ih h0 r hs with ⟨hrnil, hth⟩ | ⟨t2, ht2, hst2⟩
        · refine Or.inl ⟨by rw [← h2]; exact hrnil, ?_⟩
          rw [← h1, hth]
        · refine Or.inr ⟨t2, ?_, by rw [← h2]; exact hst2⟩
          rw [← h1, ht2]
          rfl

lemma dottedNumeric_elim (ver : PyStr) (h : dottedNumeric ver = true) :
    ∃ p0 p1 u, ver = p0 ++ '.' :: (p1 ++ u) ∧ p0 ≠ [] ∧ (∀ c ∈ p0, isDigit c = true)
      ∧ p1 ≠ [] ∧ (∀ c ∈ p1, isDigit c = true) := by
  unfold dottedNumeric at h
  rw [Bool.and_eq_true, decide_eq_true_eq, List.all_eq_true] at h
  obtain ⟨hlen, hall⟩ := h
  have hpart : ∀ p ∈ splitChar '.' ver, p ≠ [] ∧ ∀ c ∈ p, isDigit c = true := by
    intro p hp
    have := hall p hp
    rw [Bool.and_eq_true, List.all_eq_true] at this
    exact ⟨by simpa using this.1, this.2⟩
  cases hs : splitChar '.' ver with
  | nil => exact absurd hs (splitChar_ne_nil '.' ver)
  | cons p0 ps =>
    cases ps with
    | nil => rw [hs] at hlen; simp at hlen
    | cons p1 ps2 =>
      have hp0 := hpart p0 (by rw [hs]; simp)
      have hp1 := hpart p1 (by rw [hs]; simp)
      rcases splitChar_eq_cons '.' ver p0 (p1 :: ps2) hs with ⟨hnil, _⟩ | ⟨t, hveq, hst⟩
      · cases hnil
      · rcases splitChar_eq_cons '.' t p1 ps2 hst with ⟨_, hteq⟩ | ⟨t2, hteq, _⟩
        · exact ⟨p0, p1, [], by rw [hveq, hteq, List.append_nil], hp0.1, hp0.2,
            hp1.1, hp1.2⟩
        · exact ⟨p0, p1, '.' :: t2, by rw [hveq, hteq], hp0.1, hp0.2, hp1.1, hp1.2⟩

/-!  Soundness and completeness of the matcher and the search. -/

lemma matchVersionAt_sound (s cap : PyStr) (h : matchVersionAt s = some cap) :
    ∃ w1 w2 rest, s = "rsync".data ++ (w1 ++ ("version".data ++ (w2 ++ (cap ++ rest))))
      ∧ w1 ≠ [] ∧ (∀ c ∈ w1, isWs c = true)
      ∧ w2 ≠ [] ∧ (∀ c ∈ w2, isWs c = true)
      ∧ dottedNumeric cap = true := by
  unfold matchVersionAt at h
  cases h1 : stripLit "rsync".data s with
  | none => rw [h1, Option.none_bind] at h; cases h
  | some s1 =>
    rw [h1, Option.some_bind] at h
    cases h2 : takeWs1 s1 with
    | none => rw [h2, Option.none_bind] at h; cases h
    | some s2 =>
      rw [h2, Option.some_bind] at h
      cases h3 : stripLit "version".data s2 with
      | none => rw [h3, Option.none_bind] at h; cases h
      | some s3 =>
        rw [h3, Option.some_bind] at h
        cases h4 : takeWs1 s3 with
        | none => rw [h4, Option.none_bind] at h; cases h
        | some s4 =>
          rw [h4, Option.some_bind] at h
          cases h5 : takeDigits1 s4 with
          | none => rw [h5, Option.none_bind] at h; cases h
          | some ds =>
            rw [h5, Option.some_bind] at h
            obtain ⟨d, s5⟩ := ds
            rcases hdg : dotGroups s5 with ⟨g, r⟩
            by_cases hg : (dotGroups s5).1 = []
            · rw [if_pos hg] at h; cases h
            · rw [if_neg hg, Option.some.injEq] at h
              have hg2 : g ≠ [] := by rw [hdg] at hg; exact hg
              obtain ⟨hs5, hshape⟩ := dotGroups_sound s5 g r hdg hg2
              obtain ⟨w1, hs1, hw1, hws1⟩ := takeWs1_eq s1 s2 h2
              have hs2 := stripLit_eq _ _ _ h3
              obtain ⟨w2, hs3, hw2, hws2⟩ := takeWs1_eq s3 s4 h4
              obtain ⟨hs4, hdne, hddig⟩ := takeDigits1_eq s4 d s5 h5
              have hcap : cap = d ++ g := by
                rw [← h, hdg]
              refine ⟨w1, w2, r, ?_, hw1, hws1, hw2, hws2, ?_⟩
              · rw [stripLit_eq _ _ _ h1, hs1, hs2, hs3, hs4, hs5, hcap]
                simp
              · rw [hcap]
                rcases hshape with _ | ⟨d1, g1, hne1, hdig1, hg1⟩
                · exact absurd rfl hg2
                · exact dottedNumeric_of_gshape d ('.' :: (d1 ++ g1)) hdne hddig
                    (GShape.grp d1 g1 hne1 hdig1 hg1) (by simp)

lemma matchVersionAt_intro (w1 w2 ver rest : PyStr)
    (hw1 : w1 ≠ []) (hws1 : ∀ c ∈ w1, isWs c = true)
    (hw2 : w2 ≠ []) (hws2 : ∀ c ∈ w2, isWs c = true)
    (hver : dottedNumeric ver = true) :
    (matchVersionAt
      ("rsync".data ++ (w1 ++ ("version".data ++ (w2 ++ (ver ++ rest)))))).isSome := by
  obtain ⟨p0, p1, u, hveq, hp0ne, hp0dig, hp1ne, hp1dig⟩ := dottedNumeric_elim ver hver
  unfold matchVersionAt
  rw [stripLit_intro, Option.some_bind]
  rw [show w1 ++ ("version".data ++ (w2 ++ (ver ++ rest)))
      = w1 ++ 'v' :: ("ersion".data ++ (w2 ++ (ver ++ rest))) from by rfl]
  rw [takeWs1_intro w1 'v' _ hw1 hws1 (by decide), Option.some_bind]
  rw [show 'v' :: ("ersion".data ++ (w2 ++ (ver ++ rest)))
      = "version".data ++ (w2 ++ (ver ++ rest)) from by rfl]
  rw [stripLit_intro, Option.some_bind]
  cases hp0c : p0 with
  | nil => exact absurd hp0c hp0ne
  | cons c0 p0t =>
    have hc0dig : isDigit c0 = true := hp0dig c0 (by rw [hp0c]; simp)
    rw [show w2 ++ (ver ++ rest) = w2 ++ c0 :: (p0t ++ '.' :: (p1 ++ u) ++ rest)
        from by rw [hveq, hp0c]; simp]
    rw [takeWs1_intro w2 c0 _ hw2 hws2 (digit_not_ws c0 hc0dig), Option.some_bind]
    rw [show c0 :: (p0t ++ '.' :: (p1 ++ u) ++ rest)
        = (c0 :: p0t) ++ '.' :: ((p1 ++ u) ++ rest) from by simp]
    rw [takeDigits1_intro (c0 :: p0t) '.' _ (by simp)
      (by rw [← hp0c]; exact hp0dig) (by decide), Option.some_bind]
    dsimp only
    cases hp1c : p1 with
    | nil => exact absurd hp1c hp1ne
    | cons c1 p1t =>
      have hc1dig : isDigit c1 = true := hp1dig c1 (by rw [hp1c]; simp)
      rw [show ('.' :: (c1 :: p1t ++ u ++ rest) : PyStr)
          = '.' :: c1 :: (p1t ++ u ++ rest) from by simp]
      rw [show dotGroups ('.' :: c1 :: (p1t ++ u ++ rest))
          = ('.' :: c1 :: (dgDigits (p1t ++ u ++ rest)).1,
             (dgDigits (p1t ++ u ++ rest)).2) from by
        rw [dotGroups_two, if_pos (by simp [hc1dig])]]
      rw [if_neg (by simp)]
      rfl

lemma reSearchVersion_sound : ∀ s cap : PyStr, reSearchVersion s = some cap →
    ∃ pre suf, s = pre ++ suf ∧ matchVersionAt suf = some cap := by
  intro s
  induction s with
  | nil => intro cap h; exact ⟨[], [], rfl, h⟩
  | cons c t ih =>
    intro cap h
    unfold reSearchVersion at h
    cases hm : matchVersionAt (c :: t) with
    | some cap2 =>
      rw [hm] at h
      rcases h with ⟨⟩
      exact ⟨[], c :: t, rfl, hm⟩
    | none =>
      rw [hm] at h
      obtain ⟨pre, suf, ht, hms⟩ := ih cap h
      exact ⟨c :: pre, suf, by rw [ht]; rfl, hms⟩

lemma reSearchVersion_complete : ∀ pre s suf : PyStr, s = pre ++ suf →
    (matchVersionAt suf).isSome → (reSearchVersion s).isSome := by
  intro pre
  induction pre with
  | nil =>
    intro s suf hseq hm
    rw [List.nil_append] at hseq
    subst hseq
    cases s with
    | nil => exact hm
    | cons c t =>
      unfold reSearchVersion
      cases hmc : matchVersionAt (c :: t) with
      | some cap => rfl
      | none => rw [hmc] at hm; cases hm
  | cons c pre2 ih =>
    intro s suf hseq hm
    subst hseq
    show (reSearchVersion (c :: (pre2 ++ suf))).isSome = true
    unfold reSearchVersion
    cases hmc : matchVersionAt (c :: (pre2 ++ suf)) with
    | some cap => rfl
    | none => exact ih (pre2 ++ suf) suf rfl hm

lemma parse_isSome_iff (output : PyStr) :
    (parse_rsync_version output).isSome = (reSearchVersion output).isSome := by
  unfold parse_rsync_version
  cases reSearchVersion output with
  | none => rfl
  | some vs => rfl

/-!  The C7 theorems. -/

/-- Counterexample to C7 as stated: the output `foo version 3.2` contains
`version` followed by whitespace and a dotted numeric version of two
components, yet `parse_rsync_version` fails on it (the code's pattern also
requires the literal `rsync` before `version`). -/
theorem C7_counterexample_version_needs_rsync :
    ContainsVersionNumber "foo version 3.2".data
    ∧ parse_rsync_version "foo version 3.2".data = none := by
  constructor
  · exact ⟨"foo ".data, [' '], "3.2".data, [], by decide, by decide,
      by decide, by decide⟩
  · decide

/-- C7 as amended: parsing succeeds exactly on outputs containing `rsync`,
whitespace, `version`, whitespace, and a dotted numeric version of at least
two components; on `rsync version 3.2.7 protocol 31` it yields
`("3.2.7", (3, 2, 7))`, a missing third component is reported as `0`, and an
output without the pattern fails with the version-parse error (modelled as
`none`). -/
theorem C7_version_parse_amended (output : PyStr) :
    ((parse_rsync_version output).isSome ↔ HasRsyncVersion output)
    ∧ parse_rsync_version "rsync version 3.2.7 protocol 31".data
        = some ("3.2.7".data, [3, 2, 7])
    ∧ parse_rsync_version "rsync version 3.2".data = some ("3.2".data, [3, 2, 0])
    ∧ parse_rsync_version "rsync version unknown".data = none := by
  refine ⟨⟨?_, ?_⟩, by decide, by decide, by decide⟩
  · intro hsome
    rw [parse_isSome_iff] at hsome
    cases hr : reSearchVersion output with
    | none => rw [hr] at hsome; cases hsome
    | some cap =>
      obtain ⟨pre, suf, hseq, hm⟩ := reSearchVersion_sound output cap hr
      obtain ⟨w1, w2, rest, hsuf, hw1, hws1, hw2, hws2, hdn⟩ :=
        matchVersionAt_sound suf cap hm
      refine ⟨pre, w1, w2, cap, rest, ?_, hw1, hws1, hw2, hws2, hdn⟩
      rw [hseq, hsuf]
      simp
  · intro hhas
    obtain ⟨pre, w1, w2, ver, rest, heq, hw1, hws1, hw2, hws2, hdn⟩ := hhas
    rw [parse_isSome_iff]
    exact reSearchVersion_complete pre output
      ("rsync".data ++ (w1 ++ ("version".data ++ (w2 ++ (ver ++ rest)))))
      (by rw [heq]; simp)
      (matchVersionAt_intro w1 w2 ver rest hw1 hws1 hw2 hws2 hdn)

end SafeRsync
